import Mathlib

/-!
Verification of the build-output packaging utility (scripts/build.py).

The script is embedded shallowly:
* the filesystem is a list of (path, entry) bindings with last-binding-wins
  lookup (`lookupL`), where a path is its list of components;
* `validate_path`, `get_build_output_path`, the copy branch (`rmtree` +
  `copytree`), the pack branch (`os.walk` + zip writing) and `main`'s
  argument handling are translated operation by operation;
* every filesystem-touching operation additionally records an event (`Ev`),
  so that claims about "no filesystem operation performed" can be stated;
* a zip archive is modelled as its list of named entries, a later write to
  an existing name replacing the earlier entry.
-/

namespace BuildScript

abbrev Path := List String

inductive Entry : Type
  | dir : Entry
  | file : List Nat → Entry
  | zipf : List (String × List Nat) → Entry
  deriving DecidableEq, Repr

structure FS where
  entries : List (Path × Entry)
  deriving DecidableEq, Repr

inductive Err : Type
  | pathNotFound : Path → Err
  | notADirectory : Path → Err
  | isADirectory : Path → Err
  | fileExists : Path → Err
  | invalidArgs : String → Err
  deriving DecidableEq, Repr

inductive Ev : Type
  | validate : Path → Ev
  | rmtree : Path → Ev
  | copytree : Path → Path → Ev
  | zipCreate : Path → Ev
  deriving DecidableEq, Repr

/-- Last-binding-wins lookup in a list of (path, entry) bindings. -/
def lookupL : List (Path × Entry) → Path → Option Entry
  | [], _ => none
  | e :: rest, p =>
    match lookupL rest p with
    | some v => some v
    | none => if e.1 = p then some e.2 else none

def FS.lookup (fs : FS) (p : Path) : Option Entry := lookupL fs.entries p

/-- `os.path.exists`. -/
def FS.exists (fs : FS) (p : Path) : Bool := (fs.lookup p).isSome

/-- `os.path.isdir`. -/
def FS.isdir (fs : FS) (p : Path) : Bool :=
  match fs.lookup p with
  | some .dir => true
  | _ => false

/-- `validate_path(path, is_dir)` from build.py: raise FileNotFoundError if
the path does not exist, then NotADirectoryError if `is_dir` is set and the
path is not a directory. -/
def validate_path (fs : FS) (path : Path) (is_dir : Bool) : Except Err Unit :=
  if fs.exists path = false then .error (.pathNotFound path)
  else if is_dir && !fs.isdir path then .error (.notADirectory path)
  else .ok ()

/-- `configuration = "Debug"` from build.py. -/
def configuration : String := "Debug"

/-- `target = "net462"` from build.py. -/
def target : String := "net462"

/-- The hardcoded plugin list from build.py. -/
def plugins : List String := ["F95ZoneMetadata", "DLSiteMetadata"]

/-- `get_build_output_path(plugin_path)`: join with bin/<configuration>/<target>
and validate the result. -/
def get_build_output_path (fs : FS) (plugin_path : Path) : Except Err Path :=
  let result : Path := plugin_path ++ ["bin", configuration, target]
  match validate_path fs result true with
  | .error e => .error e
  | .ok _ => .ok result

/-- `shutil.rmtree` payload: drop every binding at or below `p`. -/
def FS.removeTree (fs : FS) (p : Path) : FS :=
  ⟨fs.entries.filter (fun e => !(p.isPrefixOf e.1))⟩

/-- The bindings `shutil.copytree` adds: every binding in the source subtree,
rebased onto the destination path. -/
def copyMap (l : List (Path × Entry)) (src dst : Path) : List (Path × Entry) :=
  (l.filter (fun e => src.isPrefixOf e.1)).map
    (fun e => (dst ++ e.1.drop src.length, e.2))

/-- `shutil.copytree(src, dst)`: fails if `src` is missing or not a directory
or `dst` already exists; otherwise copies the whole subtree. -/
def copytree (fs : FS) (src dst : Path) : Except Err FS :=
  if fs.exists src = false then .error (.pathNotFound src)
  else if !fs.isdir src then .error (.notADirectory src)
  else if fs.exists dst then .error (.fileExists dst)
  else .ok ⟨fs.entries ++ copyMap fs.entries src dst⟩

/-- `os.path.basename`-like: the last path component (the name `os.walk`
lists a file under). -/
def basename (p : Path) : String := p.getLastD ""

/-- The regular files directly inside directory `p`, with contents, in
binding order (the `files` component of one `os.walk` step). -/
def FS.childFiles (fs : FS) (p : Path) : List (Path × List Nat) :=
  fs.entries.filterMap (fun e =>
    if e.1.length == p.length + 1 && p.isPrefixOf e.1 then
      match fs.lookup e.1 with
      | some (.file c) => some (e.1, c)
      | _ => none
    else none)

/-- The subdirectories directly inside directory `p`, in binding order (the
`dirs` component of one `os.walk` step). -/
def FS.childDirs (fs : FS) (p : Path) : List Path :=
  fs.entries.filterMap (fun e =>
    if e.1.length == p.length + 1 && p.isPrefixOf e.1 then
      match fs.lookup e.1 with
      | some .dir => some e.1
      | _ => none
    else none)

/-- Length of the longest path bound in the filesystem: a fuel bound for the
walk. -/
def FS.maxDepth (fs : FS) : Nat :=
  fs.entries.foldr (fun e m => max e.1.length m) 0

/-- Fueled `os.walk` file traversal: the files of the root directory first,
then each subdirectory recursively (top-down). -/
def walkAux (fs : FS) : Nat → Path → List (Path × List Nat)
  | 0, _ => []
  | fuel + 1, p => fs.childFiles p ++ ((fs.childDirs p).map (walkAux fs fuel)).flatten

/-- All regular files below `root` in `os.walk` order, with contents. -/
def walkFiles (fs : FS) (root : Path) : List (Path × List Nat) :=
  walkAux fs (fs.maxDepth + 1) root

/-- `ZipFile.write(path, arcname)`: a later write to the same archive name
replaces the earlier entry. -/
def zipWrite (z : List (String × List Nat)) (n : String) (c : List Nat) :
    List (String × List Nat) :=
  z.filter (fun e => !(e.1 == n)) ++ [(n, c)]

/-- The archive produced by writing every walked file under its base name. -/
def zipEntries (files : List (Path × List Nat)) : List (String × List Nat) :=
  files.foldl (fun z f => zipWrite z (basename f.1) f.2) []

/-- The content of the file with base name `n` visited last in traversal
order, if any. -/
def lastMatch (n : String) : List (Path × List Nat) → Option (List Nat)
  | [] => none
  | f :: rest =>
    match lastMatch n rest with
    | some c => some c
    | none => if basename f.1 == n then some f.2 else none

/-- The expected build output directory `<src>/<plugin>/bin/<configuration>/<target>`. -/
def buildOutputPath (src_path : Path) (plugin : String) : Path :=
  src_path ++ [plugin, "bin", configuration, target]

/-- The loop body of `main` for one plugin: validate the plugin directory and
its build output directory, then run the copy or pack action. -/
def processPlugin (mode : String) (src_path output_path : Path) (plugin : String)
    (fs : FS) (evs : List Ev) : Except Err Unit × FS × List Ev :=
  let plugin_path := src_path ++ [plugin]
  let evs1 := evs ++ [.validate plugin_path]
  match validate_path fs plugin_path true with
  | .error e => (.error e, fs, evs1)
  | .ok _ =>
    let evs2 := evs1 ++ [.validate (plugin_path ++ ["bin", configuration, target])]
    match get_build_output_path fs plugin_path with
    | .error e => (.error e, fs, evs2)
    | .ok build_output_path =>
      if mode = "copy" then
        let plugin_output_path := output_path ++ [plugin]
        if fs.exists plugin_output_path then
          let evs3 := evs2 ++ [.rmtree plugin_output_path]
          if fs.isdir plugin_output_path = false then
            (.error (.notADirectory plugin_output_path), fs, evs3)
          else
            let fs1 := fs.removeTree plugin_output_path
            let evs4 := evs3 ++ [.copytree build_output_path plugin_output_path]
            match copytree fs1 build_output_path plugin_output_path with
            | .error e => (.error e, fs1, evs4)
            | .ok fs2 => (.ok (), fs2, evs4)
        else
          let evs4 := evs2 ++ [.copytree build_output_path plugin_output_path]
          match copytree fs build_output_path plugin_output_path with
          | .error e => (.error e, fs, evs4)
          | .ok fs2 => (.ok (), fs2, evs4)
      else if mode = "pack" then
        let zip_output_path := output_path ++ [plugin ++ ".zip"]
        let evs3 := evs2 ++ [.zipCreate zip_output_path]
        if fs.isdir zip_output_path then
          (.error (.isADirectory zip_output_path), fs, evs3)
        else
          let z := zipEntries (walkFiles fs build_output_path)
          (.ok (), ⟨fs.entries ++ [(zip_output_path, .zipf z)]⟩, evs3)
      else
        (.error (.invalidArgs ("Unknown mode: " ++ mode)), fs, evs2)

/-- The `for plugin in plugins` loop of `main`: fail-fast sequencing. -/
def runPlugins (mode : String) (src_path output_path : Path) :
    List String → FS → List Ev → Except Err Unit × FS × List Ev
  | [], fs, evs => (.ok (), fs, evs)
  | p :: rest, fs, evs =>
    match processPlugin mode src_path output_path p fs evs with
    | (.ok _, fs1, evs1) => runPlugins mode src_path output_path rest fs1 evs1
    | (.error e, fs1, evs1) => (.error e, fs1, evs1)

/-- `main()` from build.py. `abspath` models `os.path.abspath` (resolution
against the current working directory); `argv` is `sys.argv`. -/
def main (abspath : String → Path) (fs : FS) (argv : List String) :
    Except Err Unit × FS × List Ev :=
  match argv with
  | [_, mode, dst] =>
    let output_path := abspath dst
    match validate_path fs output_path true with
    | .error e => (.error e, fs, [.validate output_path])
    | .ok _ =>
      let src_path := abspath "../src"
      match validate_path fs src_path true with
      | .error e => (.error e, fs, [.validate output_path, .validate src_path])
      | .ok _ =>
        runPlugins mode src_path output_path plugins fs
          [.validate output_path, .validate src_path]
  | _ => (.error (.invalidArgs "Not enough arguments!"), fs, [])

/-- Events that modify the filesystem (everything except a validation). -/
def isMut : Ev → Bool
  | .validate _ => false
  | _ => true

/-! Concrete filesystems used to instantiate the theorems below. -/

/-- A concrete `os.path.abspath`: the destination argument resolves to
`["out"]`, the fixed `"../src"` to `["src"]`. -/
def wAbs : String → Path := fun s => if s = "../src" then ["src"] else ["out"]

/-- The build output directory of the first plugin under `["src"]`. -/
def wBo1 : Path := ["src", "F95ZoneMetadata", "bin", "Debug", "net462"]

/-- The build output directory of the second plugin under `["src"]`. -/
def wBo2 : Path := ["src", "DLSiteMetadata", "bin", "Debug", "net462"]

/-- A filesystem with both plugins' build outputs present; the first plugin
has files `a.txt`, `a/x.txt`, `b/x.txt` (a base-name collision), the second
plugin's build output directory is empty. -/
def wFS : FS := ⟨[
  (["out"], .dir),
  (["src"], .dir),
  (["src", "F95ZoneMetadata"], .dir),
  (wBo1, .dir),
  (wBo1 ++ ["a.txt"], .file [10]),
  (wBo1 ++ ["a"], .dir),
  (wBo1 ++ ["a", "x.txt"], .file [1]),
  (wBo1 ++ ["b"], .dir),
  (wBo1 ++ ["b", "x.txt"], .file [2]),
  (["src", "DLSiteMetadata"], .dir),
  (wBo2, .dir)
]⟩

/-- `wFS` with a pre-existing destination plugin directory holding a stale
file. -/
def wFS2 : FS := ⟨wFS.entries ++ [
  (["out", "F95ZoneMetadata"], .dir),
  (["out", "F95ZoneMetadata", "stale.txt"], .file [9])
]⟩

/-- `wFS` without the second plugin's build output directory. -/
def wFS3 : FS := ⟨wFS.entries.filter (fun e => !(e.1 == wBo2))⟩

/-- `wFS` with a regular file sitting at the first plugin's destination
path. -/
def wFS4 : FS := ⟨wFS.entries ++ [(["out", "F95ZoneMetadata"], .file [5])]⟩

/-! Path-prefix toolbox (`List.isPrefixOf` on path components). -/

theorem pfx_iff_exists : ∀ (p q : Path), p.isPrefixOf q = true ↔ ∃ t, q = p ++ t := by
  intro p
  induction p with
  | nil => intro q; simp [List.isPrefixOf]
  | cons a p ih =>
    intro q
    cases q with
    | nil => simp [List.isPrefixOf]
    | cons b q =>
      simp only [List.isPrefixOf, Bool.and_eq_true, beq_iff_eq, ih, List.cons_append,
        List.cons.injEq]
      constructor
      · rintro ⟨rfl, t, rfl⟩; exact ⟨t, rfl, rfl⟩
      · rintro ⟨t, rfl, rfl⟩; exact ⟨rfl, t, rfl⟩

theorem pfx_append_self (p t : Path) : p.isPrefixOf (p ++ t) = true :=
  (pfx_iff_exists p (p ++ t)).mpr ⟨t, rfl⟩

theorem pfx_refl (p : Path) : p.isPrefixOf p = true :=
  (pfx_iff_exists p p).mpr ⟨[], (List.append_nil p).symm⟩

theorem pfx_trans {a b c : Path} (h1 : a.isPrefixOf b = true)
    (h2 : b.isPrefixOf c = true) : a.isPrefixOf c = true := by
  rcases (pfx_iff_exists a b).mp h1 with ⟨t, rfl⟩
  rcases (pfx_iff_exists _ c).mp h2 with ⟨u, rfl⟩
  rw [List.append_assoc]
  exact pfx_append_self a (t ++ u)

theorem pfx_nil_left (b : Path) : List.isPrefixOf ([] : Path) b = true :=
  (pfx_iff_exists [] b).mpr ⟨b, rfl⟩

theorem pfx_comparable : ∀ {c a b : Path}, a.isPrefixOf c = true →
    b.isPrefixOf c = true → a.isPrefixOf b = true ∨ b.isPrefixOf a = true := by
  intro c
  induction c with
  | nil =>
    intro a b ha _
    rcases (pfx_iff_exists a []).mp ha with ⟨t, ht⟩
    rcases (List.append_eq_nil).mp ht.symm with ⟨rfl, -⟩
    left; exact pfx_nil_left b
  | cons x c ih =>
    intro a b ha hb
    cases a with
    | nil => left; exact pfx_nil_left b
    | cons xa a =>
      cases b with
      | nil => right; exact pfx_nil_left (xa :: a)
      | cons xb b =>
        simp only [List.isPrefixOf, Bool.and_eq_true, beq_iff_eq] at ha hb ⊢
        rcases ha with ⟨rfl, ha⟩
        rcases hb with ⟨rfl, hb⟩
        rcases ih ha hb with h | h
        · exact Or.inl ⟨rfl, h⟩
        · exact Or.inr ⟨rfl, h⟩

theorem sep_pfx {a b : Path} (h1 : a.isPrefixOf b = false)
    (h2 : b.isPrefixOf a = false) (t u : Path) :
    (a ++ t).isPrefixOf (b ++ u) = false := by
  cases hx : (a ++ t).isPrefixOf (b ++ u) with
  | false => rfl
  | true =>
    have ha : a.isPrefixOf (b ++ u) = true := pfx_trans (pfx_append_self a t) hx
    have hb : b.isPrefixOf (b ++ u) = true := pfx_append_self b u
    rcases pfx_comparable ha hb with h | h
    · rw [h1] at h; cases h
    · rw [h2] at h; cases h

theorem sep_ne {a b : Path} (h1 : a.isPrefixOf b = false)
    (h2 : b.isPrefixOf a = false) (t u : Path) : a ++ t ≠ b ++ u := by
  intro he
  have := sep_pfx h1 h2 t u
  rw [he, pfx_refl] at this
  cases this

theorem pfx_append_both : ∀ (d a b : Path),
    (d ++ a).isPrefixOf (d ++ b) = a.isPrefixOf b := by
  intro d
  induction d with
  | nil => intro a b; rfl
  | cons x d ih => intro a b; simp [List.isPrefixOf, ih]

theorem pfx_distinct_child {x y : String} (h : x ≠ y) (d t : Path) :
    (d ++ [x]).isPrefixOf ((d ++ [y]) ++ t) = false := by
  rw [List.append_assoc, pfx_append_both]
  simp [List.isPrefixOf, h]

theorem ne_of_pfx_false {a b : Path} (h : a.isPrefixOf b = false) : a ≠ b := by
  intro he; rw [he, pfx_refl] at h; cases h

/-! Lookup lemmas for the last-binding-wins association list. -/

theorem lookupL_append (l₁ l₂ : List (Path × Entry)) (p : Path) :
    lookupL (l₁ ++ l₂) p =
      match lookupL l₂ p with
      | some v => some v
      | none => lookupL l₁ p := by
  induction l₁ with
  | nil =>
    simp only [List.nil_append]
    cases h : lookupL l₂ p <;> simp [lookupL]
  | cons e l ih =>
    simp only [List.cons_append, lookupL, List.append_eq]
    rw [ih]
    cases h : lookupL l₂ p <;> cases h2 : lookupL l p <;> simp [h, h2]

theorem lookupL_eq_none {l : List (Path × Entry)} {p : Path}
    (h : ∀ e ∈ l, e.1 ≠ p) : lookupL l p = none := by
  induction l with
  | nil => rfl
  | cons e l ih =>
    simp only [lookupL, ih (fun x hx => h x (List.mem_cons_of_mem e hx))]
    simp [h e (List.mem_cons_self e l)]

theorem lookupL_filter_keep {pf q : Path} (h : pf.isPrefixOf q = false)
    (l : List (Path × Entry)) :
    lookupL (l.filter (fun e => !(pf.isPrefixOf e.1))) q = lookupL l q := by
  induction l with
  | nil => rfl
  | cons e l ih =>
    by_cases hc : pf.isPrefixOf e.1 = true
    · have hne : e.1 ≠ q := by intro he; rw [he, h] at hc; cases hc
      simp only [List.filter_cons, hc, Bool.not_true, if_neg (Bool.false_ne_true), ih,
        lookupL]
      cases hh : lookupL l q <;> simp [hh, hne]
    · simp only [Bool.not_eq_true] at hc
      simp only [List.filter_cons, hc, Bool.not_false, if_pos rfl, lookupL, ih]

theorem lookupL_filter_none {pf q : Path} (h : pf.isPrefixOf q = true)
    (l : List (Path × Entry)) :
    lookupL (l.filter (fun e => !(pf.isPrefixOf e.1))) q = none := by
  apply lookupL_eq_none
  intro e he
  rcases List.mem_filter.mp he with ⟨-, hkeep⟩
  intro hq
  rw [hq, h] at hkeep
  cases hkeep

theorem copyMap_cons_pos {src : Path} {e : Path × Entry}
    (hc : src.isPrefixOf e.1 = true) (l : List (Path × Entry)) (dst : Path) :
    copyMap (e :: l) src dst =
      (dst ++ e.1.drop src.length, e.2) :: copyMap l src dst := by
  simp [copyMap, List.filter_cons, hc]

theorem copyMap_cons_neg {src : Path} {e : Path × Entry}
    (hc : src.isPrefixOf e.1 = false) (l : List (Path × Entry)) (dst : Path) :
    copyMap (e :: l) src dst = copyMap l src dst := by
  simp [copyMap, List.filter_cons, hc]

theorem lookupL_copyMap (src dst rest : Path) :
    ∀ (l : List (Path × Entry)),
    lookupL (copyMap l src dst) (dst ++ rest) = lookupL l (src ++ rest) := by
  intro l
  induction l with
  | nil => rfl
  | cons e l ih =>
    by_cases hc : src.isPrefixOf e.1 = true
    · rcases (pfx_iff_exists src e.1).mp hc with ⟨t, ht⟩
      have hdrop : e.1.drop src.length = t := by rw [ht]; exact List.drop_left src t
      rw [copyMap_cons_pos hc]
      simp only [lookupL, ih, hdrop]
      cases h2 : lookupL l (src ++ rest) <;>
        simp [h2, ht, List.append_cancel_left_eq]
    · simp only [Bool.not_eq_true] at hc
      have hne : e.1 ≠ src ++ rest := by
        intro he; rw [he, pfx_append_self] at hc; cases hc
      rw [copyMap_cons_neg hc]
      simp only [lookupL, ih]
      cases h2 : lookupL l (src ++ rest) <;> simp [h2, hne]

theorem lookupL_copyMap_none {src dst q : Path} (h : dst.isPrefixOf q = false)
    (l : List (Path × Entry)) : lookupL (copyMap l src dst) q = none := by
  apply lookupL_eq_none
  intro e he
  rcases List.mem_map.mp he with ⟨f, -, rfl⟩
  intro hq
  rw [← hq, pfx_append_self] at h
  cases h

theorem lookup_append_single (l : List (Path × Entry)) (k : Path) (v : Entry)
    (q : Path) :
    lookupL (l ++ [(k, v)]) q = if k = q then some v else lookupL l q := by
  rw [lookupL_append]
  by_cases h : k = q <;> simp [lookupL, h]

/-! Basic facts about exists/isdir/validate. -/

theorem exists_of_isdir {fs : FS} {p : Path} (h : fs.isdir p = true) :
    fs.exists p = true := by
  unfold FS.isdir at h
  unfold FS.exists
  cases hl : fs.lookup p with
  | none => rw [hl] at h; cases h
  | some e => simp

theorem isdir_eq_of_lookup {fs1 fs2 : FS} {p : Path}
    (h : fs1.lookup p = fs2.lookup p) : fs1.isdir p = fs2.isdir p := by
  unfold FS.isdir
  rw [h]

theorem exists_eq_of_lookup {fs1 fs2 : FS} {p : Path}
    (h : fs1.lookup p = fs2.lookup p) : fs1.exists p = fs2.exists p := by
  unfold FS.exists
  rw [h]

theorem validate_ok_of_isdir {fs : FS} {p : Path} (h : fs.isdir p = true) :
    validate_path fs p true = .ok () := by
  unfold validate_path
  rw [exists_of_isdir h, h]
  simp

theorem validate_notfound {fs : FS} {p : Path} (h : fs.exists p = false) :
    validate_path fs p true = .error (.pathNotFound p) := by
  unfold validate_path
  rw [h]
  simp

/-! The walk: bounds, fuel stability, and invariance under appending
bindings outside the walked subtree. -/

theorem mem_childFiles {fs : FS} {p q : Path} {c : List Nat}
    (h : (q, c) ∈ fs.childFiles p) :
    fs.lookup q = some (.file c) ∧ p.isPrefixOf q = true ∧
      q.length = p.length + 1 := by
  rcases List.mem_filterMap.mp h with ⟨e, -, he⟩
  split at he
  · rename_i hc
    rw [Bool.and_eq_true, beq_iff_eq] at hc
    split at he
    · rename_i c' heq
      have h1 : e.1 = q := congrArg Prod.fst (Option.some.inj he)
      have h2 : c' = c := congrArg Prod.snd (Option.some.inj he)
      subst h1; subst h2
      exact ⟨heq, hc.2, hc.1⟩
    · cases he
  · cases he

theorem mem_childDirs {fs : FS} {p q : Path} (h : q ∈ fs.childDirs p) :
    fs.lookup q = some .dir ∧ p.isPrefixOf q = true ∧
      q.length = p.length + 1 := by
  rcases List.mem_filterMap.mp h with ⟨e, -, he⟩
  split at he
  · rename_i hc
    rw [Bool.and_eq_true, beq_iff_eq] at hc
    split at he
    · rename_i heq
      have h1 : e.1 = q := Option.some.inj he
      subst h1
      exact ⟨heq, hc.2, hc.1⟩
    · cases he
  · cases he

theorem length_le_maxDepth {fs : FS} {e : Path × Entry} (h : e ∈ fs.entries) :
    e.1.length ≤ fs.maxDepth := by
  obtain ⟨l⟩ := fs
  unfold FS.maxDepth
  simp only at h ⊢
  induction l with
  | nil => cases h
  | cons a l ih =>
    rcases List.mem_cons.mp h with rfl | h
    · exact Nat.le_max_left _ _
    · exact Nat.le_trans (ih h) (Nat.le_max_right _ _)

theorem childFiles_nil_of_deep {fs : FS} {p : Path}
    (h : fs.maxDepth < p.length + 1) : fs.childFiles p = [] := by
  apply List.filterMap_eq_nil_iff.mpr
  intro e he
  have hle := length_le_maxDepth he
  have : (e.1.length == p.length + 1) = false := by
    rw [beq_eq_false_iff_ne]
    omega
  simp [FS.childFiles, this]

theorem childDirs_nil_of_deep {fs : FS} {p : Path}
    (h : fs.maxDepth < p.length + 1) : fs.childDirs p = [] := by
  apply List.filterMap_eq_nil_iff.mpr
  intro e he
  have hle := length_le_maxDepth he
  have : (e.1.length == p.length + 1) = false := by
    rw [beq_eq_false_iff_ne]
    omega
  simp [FS.childDirs, this]

theorem walkAux_deep {fs : FS} {p : Path} (h : fs.maxDepth < p.length) :
    ∀ fuel, walkAux fs fuel p = [] := by
  intro fuel
  cases fuel with
  | zero => rfl
  | succ k =>
    have h1 : fs.maxDepth < p.length + 1 := Nat.lt_succ_of_lt h
    simp [walkAux, childFiles_nil_of_deep h1, childDirs_nil_of_deep h1]

theorem walkAux_stable {fs : FS} : ∀ (f1 f2 : Nat) (p : Path),
    fs.maxDepth < p.length + f1 → fs.maxDepth < p.length + f2 →
    walkAux fs f1 p = walkAux fs f2 p := by
  intro f1
  induction f1 with
  | zero =>
    intro f2 p h1 _
    exact (walkAux_deep (by simpa using h1) f2).symm
  | succ k ih =>
    intro f2 p h1 h2
    cases f2 with
    | zero => exact walkAux_deep (by simpa using h2) (k + 1)
    | succ m =>
      simp only [walkAux]
      congr 1
      congr 1
      apply List.map_congr_left
      intro q hq
      have hlen : q.length = p.length + 1 := (mem_childDirs hq).2.2
      apply ih
      · omega
      · omega

theorem maxDepth_foldr (b : Nat) : ∀ (l : List (Path × Entry)),
    List.foldr (fun e m => max e.1.length m) b l =
      max b (List.foldr (fun e m => max e.1.length m) 0 l) := by
  intro l
  induction l with
  | nil => simp
  | cons a l ih =>
    simp only [List.foldr_cons, ih]
    omega

theorem maxDepth_append_le (l ext : List (Path × Entry)) :
    FS.maxDepth ⟨l⟩ ≤ FS.maxDepth ⟨l ++ ext⟩ := by
  unfold FS.maxDepth
  simp only [List.foldr_append]
  rw [maxDepth_foldr (List.foldr (fun e m => max e.1.length m) 0 ext) l]
  omega

theorem lookup_append_ext {l ext : List (Path × Entry)} {root q : Path}
    (hext : ∀ e ∈ ext, root.isPrefixOf e.1 = false)
    (hq : root.isPrefixOf q = true) :
    FS.lookup ⟨l ++ ext⟩ q = FS.lookup ⟨l⟩ q := by
  have hne : ∀ e ∈ ext, e.1 ≠ q := by
    intro e he hq'
    have hre := hext e he
    rw [hq', hq] at hre
    cases hre
  unfold FS.lookup
  simp only
  rw [lookupL_append, lookupL_eq_none hne]

theorem childFiles_append_ext {l ext : List (Path × Entry)} {root p : Path}
    (hext : ∀ e ∈ ext, root.isPrefixOf e.1 = false)
    (hp : root.isPrefixOf p = true) :
    FS.childFiles ⟨l ++ ext⟩ p = FS.childFiles ⟨l⟩ p := by
  unfold FS.childFiles
  simp only [List.filterMap_append]
  have hnil : ∀ e ∈ ext,
      (if e.1.length == p.length + 1 && p.isPrefixOf e.1 then
        match FS.lookup ⟨l ++ ext⟩ e.1 with
        | some (.file c) => some (e.1, c)
        | _ => none
      else none) = none := by
    intro e he
    have : p.isPrefixOf e.1 = false := by
      cases hpe : p.isPrefixOf e.1 with
      | false => rfl
      | true => rw [← hext e he]; exact (pfx_trans hp hpe).symm ▸ rfl
    simp [this]
  rw [List.filterMap_eq_nil_iff.mpr hnil, List.append_nil]
  apply List.filterMap_congr
  intro e _
  by_cases hc : (e.1.length == p.length + 1 && p.isPrefixOf e.1) = true
  · rw [if_pos hc, if_pos hc]
    rw [Bool.and_eq_true] at hc
    rw [lookup_append_ext hext (pfx_trans hp hc.2)]
  · rw [if_neg hc, if_neg hc]

theorem childDirs_append_ext {l ext : List (Path × Entry)} {root p : Path}
    (hext : ∀ e ∈ ext, root.isPrefixOf e.1 = false)
    (hp : root.isPrefixOf p = true) :
    FS.childDirs ⟨l ++ ext⟩ p = FS.childDirs ⟨l⟩ p := by
  unfold FS.childDirs
  simp only [List.filterMap_append]
  have hnil : ∀ e ∈ ext,
      (if e.1.length == p.length + 1 && p.isPrefixOf e.1 then
        match FS.lookup ⟨l ++ ext⟩ e.1 with
        | some .dir => some e.1
        | _ => none
      else none) = none := by
    intro e he
    have : p.isPrefixOf e.1 = false := by
      cases hpe : p.isPrefixOf e.1 with
      | false => rfl
      | true => rw [← hext e he]; exact (pfx_trans hp hpe).symm ▸ rfl
    simp [this]
  rw [List.filterMap_eq_nil_iff.mpr hnil, List.append_nil]
  apply List.filterMap_congr
  intro e _
  by_cases hc : (e.1.length == p.length + 1 && p.isPrefixOf e.1) = true
  · rw [if_pos hc, if_pos hc]
    rw [Bool.and_eq_true] at hc
    rw [lookup_append_ext hext (pfx_trans hp hc.2)]
  · rw [if_neg hc, if_neg hc]

theorem walkAux_append_ext {l ext : List (Path × Entry)} {root : Path}
    (hext : ∀ e ∈ ext, root.isPrefixOf e.1 = false) :
    ∀ (fuel : Nat) (p : Path), root.isPrefixOf p = true →
    walkAux ⟨l ++ ext⟩ fuel p = walkAux ⟨l⟩ fuel p := by
  intro fuel
  induction fuel with
  | zero => intro p _; rfl
  | succ k ih =>
    intro p hp
    simp only [walkAux]
    rw [childFiles_append_ext hext hp, childDirs_append_ext hext hp]
    congr 1
    congr 1
    apply List.map_congr_left
    intro q hq
    exact ih q (pfx_trans hp (mem_childDirs hq).2.1)

theorem walkFiles_append_ext {l ext : List (Path × Entry)} {root : Path}
    (hext : ∀ e ∈ ext, root.isPrefixOf e.1 = false) :
    walkFiles ⟨l ++ ext⟩ root = walkFiles ⟨l⟩ root := by
  unfold walkFiles
  rw [walkAux_append_ext hext _ root (pfx_refl root)]
  apply walkAux_stable
  · have := maxDepth_append_le l ext
    omega
  · omega

theorem mem_walkAux {fs : FS} : ∀ {fuel : Nat} {p q : Path} {c : List Nat},
    (q, c) ∈ walkAux fs fuel p →
    fs.lookup q = some (.file c) ∧ p.isPrefixOf q = true := by
  intro fuel
  induction fuel with
  | zero => intro p q c h; cases h
  | succ k ih =>
    intro p q c h
    simp only [walkAux, List.mem_append] at h
    rcases h with h | h
    · have hm := mem_childFiles h
      exact ⟨hm.1, hm.2.1⟩
    · rcases List.mem_flatten.mp h with ⟨L, hL, hqL⟩
      rcases List.mem_map.mp hL with ⟨d, hd, rfl⟩
      rcases ih hqL with ⟨h1, h2⟩
      exact ⟨h1, pfx_trans (mem_childDirs hd).2.1 h2⟩

theorem walkFiles_eq_nil {fs : FS} {root : Path}
    (h : ∀ q c, root.isPrefixOf q = true →
      fs.lookup q = some (.file c) → False) :
    walkFiles fs root = [] := by
  apply List.eq_nil_iff_forall_not_mem.mpr
  rintro ⟨q, c⟩ hm
  rcases mem_walkAux hm with ⟨h1, h2⟩
  exact h q c h2 h1

/-! The archive fold: for each name the archive keeps exactly the content of
the last written file of that name. -/

theorem zipFold_filter (n : String) : ∀ (L : List (Path × List Nat))
    (z : List (String × List Nat)),
    (L.foldl (fun z f => zipWrite z (basename f.1) f.2) z).filter
        (fun e => e.1 == n) =
      match lastMatch n L with
      | some c => [(n, c)]
      | none => z.filter (fun e => e.1 == n) := by
  intro L
  induction L with
  | nil => intro z; rfl
  | cons f L ih =>
    intro z
    simp only [List.foldl_cons, lastMatch]
    rw [ih]
    cases hlm : lastMatch n L with
    | some c => simp
    | none =>
      simp only
      by_cases hb : basename f.1 = n
      · rw [hb]
        simp only [beq_self_eq_true, if_pos]
        unfold zipWrite
        simp [List.filter_append, List.filter_filter, Bool.and_not_self,
          Bool.not_and_self]
      · have hbne : (basename f.1 == n) = false := beq_eq_false_iff_ne.mpr hb
        simp only [hbne, Bool.false_eq_true, if_false]
        unfold zipWrite
        rw [List.filter_append, List.filter_filter]
        have hcg : ∀ e ∈ z, (e.1 == n && !(e.1 == basename f.1)) = (e.1 == n) := by
          intro e _
          cases he : e.1 == n with
          | false => simp
          | true =>
            have he' : e.1 = n := beq_iff_eq.mp he
            subst he'
            simp [beq_eq_false_iff_ne.mpr (fun h => hb h.symm)]
        rw [List.filter_congr hcg]
        simp [hbne]

theorem lastMatch_isSome {n : String} {q : Path} {c : List Nat} :
    ∀ {L : List (Path × List Nat)}, (q, c) ∈ L → basename q = n →
    ∃ c0, lastMatch n L = some c0 := by
  intro L
  induction L with
  | nil => intro h; cases h
  | cons f L ih =>
    intro hm hb
    rcases List.mem_cons.mp hm with rfl | hm
    · simp only [lastMatch]
      cases hlm : lastMatch n L with
      | some c0 => exact ⟨c0, rfl⟩
      | none =>
        refine ⟨c, ?_⟩
        simp [hb]
    · rcases ih hm hb with ⟨c0, hc0⟩
      exact ⟨c0, by simp [lastMatch, hc0]⟩

/-! Frame lemmas: every filesystem mutation of the run only affects paths
below the destination directory. -/

theorem pfx_extend_false {out q : Path} (h : out.isPrefixOf q = false)
    (t : Path) : (out ++ t).isPrefixOf q = false := by
  cases hx : (out ++ t).isPrefixOf q with
  | false => rfl
  | true =>
    rw [← h]
    exact (pfx_trans (pfx_append_self out t) hx).symm

theorem removeTree_lookup_keep {fs : FS} {pf q : Path}
    (h : pf.isPrefixOf q = false) : (fs.removeTree pf).lookup q = fs.lookup q :=
  lookupL_filter_keep h fs.entries

theorem removeTree_lookup_none {fs : FS} {pf q : Path}
    (h : pf.isPrefixOf q = true) : (fs.removeTree pf).lookup q = none :=
  lookupL_filter_none h fs.entries

theorem copytree_ok {fs : FS} {src dst : Path} (h1 : fs.exists src = true)
    (h2 : fs.isdir src = true) (h3 : fs.exists dst = false) :
    copytree fs src dst = .ok ⟨fs.entries ++ copyMap fs.entries src dst⟩ := by
  unfold copytree
  rw [h1, h2, h3]
  simp

theorem copytree_frame {fs fs2 : FS} {src dst : Path}
    (hok : copytree fs src dst = .ok fs2) {q : Path}
    (h : dst.isPrefixOf q = false) : fs2.lookup q = fs.lookup q := by
  unfold copytree at hok
  split at hok
  · cases hok
  · split at hok
    · cases hok
    · split at hok
      · cases hok
      · have hfs2 : fs2 = ⟨fs.entries ++ copyMap fs.entries src dst⟩ :=
          (Except.ok.inj hok).symm
        subst hfs2
        unfold FS.lookup
        simp only
        rw [lookupL_append, lookupL_copyMap_none h]

theorem copytree_entries {fs fs2 : FS} {src dst : Path}
    (hok : copytree fs src dst = .ok fs2) :
    fs2.entries = fs.entries ++ copyMap fs.entries src dst := by
  unfold copytree at hok
  split at hok
  · cases hok
  · split at hok
    · cases hok
    · split at hok
      · cases hok
      · rw [← Except.ok.inj hok]

theorem processPlugin_frame (mode : String) (src out : Path) (pl : String)
    (fs : FS) (evs : List Ev) {q : Path} (h : out.isPrefixOf q = false) :
    ((processPlugin mode src out pl fs evs).2.1).lookup q = fs.lookup q := by
  have hpop : (out ++ [pl]).isPrefixOf q = false := pfx_extend_false h [pl]
  have hzip : (out ++ [pl ++ ".zip"]) ≠ q :=
    ne_of_pfx_false (pfx_extend_false h [pl ++ ".zip"])
  unfold processPlugin
  cases hv1 : validate_path fs (src ++ [pl]) true with
  | error e => simp [hv1]
  | ok u =>
    simp only [hv1]
    cases hv2 : get_build_output_path fs (src ++ [pl]) with
    | error e => simp [hv2]
    | ok bop =>
      simp only [hv2]
      by_cases hc : mode = "copy"
      · simp only [if_pos hc]
        by_cases hex : fs.exists (out ++ [pl]) = true
        · simp only [hex, if_true]
          by_cases hdir : fs.isdir (out ++ [pl]) = false
          · simp [hdir]
          · simp only [if_neg hdir]
            cases hct : copytree (fs.removeTree (out ++ [pl])) bop (out ++ [pl]) with
            | error e =>
              simp only [hct]
              exact removeTree_lookup_keep hpop
            | ok fs2 =>
              simp only [hct]
              rw [copytree_frame hct hpop]
              exact removeTree_lookup_keep hpop
        · simp only [Bool.not_eq_true] at hex
          simp only [hex, Bool.false_eq_true, if_false]
          cases hct : copytree fs bop (out ++ [pl]) with
          | error e => simp [hct]
          | ok fs2 =>
            simp only [hct]
            exact copytree_frame hct hpop
      · simp only [if_neg hc]
        by_cases hp : mode = "pack"
        · simp only [if_pos hp]
          by_cases hzd : fs.isdir (out ++ [pl ++ ".zip"]) = true
          · simp [hzd]
          · simp only [Bool.not_eq_true] at hzd
            simp only [hzd, Bool.false_eq_true, if_false]
            simp only [FS.lookup]
            rw [lookup_append_single, if_neg hzip]
        · simp [if_neg hp]

theorem runPlugins_frame (mode : String) (src out : Path) :
    ∀ (ps : List String) (fs : FS) (evs : List Ev) {q : Path},
    out.isPrefixOf q = false →
    ((runPlugins mode src out ps fs evs).2.1).lookup q = fs.lookup q := by
  intro ps
  induction ps with
  | nil => intro fs evs q h; rfl
  | cons p ps ih =>
    intro fs evs q h
    have hstep := processPlugin_frame mode src out p fs evs h
    simp only [runPlugins]
    split
    · rename_i fs1 evs1 heq
      rw [heq] at hstep
      rw [ih fs1 evs1 h]
      exact hstep
    · rename_i e fs1 evs1 heq
      rw [heq] at hstep
      exact hstep

theorem main_frame (abspath : String → Path) (fs : FS)
    (prog mode dstArg : String) {q : Path}
    (h : (abspath dstArg).isPrefixOf q = false) :
    ((main abspath fs [prog, mode, dstArg]).2.1).lookup q = fs.lookup q := by
  cases hv1 : validate_path fs (abspath dstArg) true with
  | error e => simp [main, hv1]
  | ok u =>
    cases hv2 : validate_path fs (abspath "../src") true with
    | error e => simp [main, hv1, hv2]
    | ok u2 =>
      simp only [main, hv1, hv2]
      exact runPlugins_frame mode (abspath "../src") (abspath dstArg) plugins fs
        [.validate (abspath dstArg), .validate (abspath "../src")] h

/-! Forward characterization of one successful plugin step, for each mode. -/

theorem bo_assoc (src : Path) (pl : String) :
    (src ++ [pl]) ++ ["bin", configuration, target] = buildOutputPath src pl := by
  simp [buildOutputPath]

theorem get_build_output_path_ok {fs : FS} {src : Path} {pl : String}
    (h : fs.isdir (buildOutputPath src pl) = true) :
    get_build_output_path fs (src ++ [pl]) = .ok (buildOutputPath src pl) := by
  unfold get_build_output_path
  rw [bo_assoc]
  simp only [validate_ok_of_isdir h]

theorem processPack_ok {fs : FS} {src out : Path} {pl : String} (evs : List Ev)
    (h1 : fs.isdir (src ++ [pl]) = true)
    (h2 : fs.isdir (buildOutputPath src pl) = true)
    (h3 : fs.isdir (out ++ [pl ++ ".zip"]) = false) :
    processPlugin "pack" src out pl fs evs =
      (.ok (), ⟨fs.entries ++ [(out ++ [pl ++ ".zip"],
          .zipf (zipEntries (walkFiles fs (buildOutputPath src pl))))]⟩,
        evs ++ [.validate (src ++ [pl]), .validate (buildOutputPath src pl),
          .zipCreate (out ++ [pl ++ ".zip"])]) := by
  unfold processPlugin
  simp only [validate_ok_of_isdir h1, get_build_output_path_ok h2, h3,
    if_neg (show ¬("pack" = "copy") by decide)]
  simp [buildOutputPath]

theorem processCopy_ok {fs : FS} {src out : Path} {pl : String} (evs : List Ev)
    (h1 : fs.isdir (src ++ [pl]) = true)
    (h2 : fs.isdir (buildOutputPath src pl) = true)
    (h3 : fs.exists (out ++ [pl]) = false ∨ fs.isdir (out ++ [pl]) = true)
    (hsep : ∀ rest : Path,
      (out ++ [pl]).isPrefixOf (buildOutputPath src pl ++ rest) = false) :
    ∃ fs1 : FS,
      processPlugin "copy" src out pl fs evs =
        (.ok (), fs1,
          evs ++ ([.validate (src ++ [pl]), .validate (buildOutputPath src pl)] ++
            (if fs.exists (out ++ [pl]) then [.rmtree (out ++ [pl])] else []) ++
            [.copytree (buildOutputPath src pl) (out ++ [pl])])) ∧
      (∀ q, (out ++ [pl]).isPrefixOf q = false → fs1.lookup q = fs.lookup q) ∧
      (∀ rest, fs1.lookup ((out ++ [pl]) ++ rest) =
        match fs.lookup (buildOutputPath src pl ++ rest) with
        | some e => some e
        | none => if fs.exists (out ++ [pl]) then none
                  else fs.lookup ((out ++ [pl]) ++ rest)) := by
  have hbo : (out ++ [pl]).isPrefixOf (buildOutputPath src pl) = false := by
    have := hsep []
    rwa [List.append_nil] at this
  have hexbo : fs.exists (buildOutputPath src pl) = true := exists_of_isdir h2
  unfold processPlugin
  simp only [validate_ok_of_isdir h1, get_build_output_path_ok h2, if_pos rfl]
  by_cases hex : fs.exists (out ++ [pl]) = true
  · have hdir : fs.isdir (out ++ [pl]) = true := by
      rcases h3 with h3 | h3
      · rw [hex] at h3; cases h3
      · exact h3
    have hexbo1 : (fs.removeTree (out ++ [pl])).exists (buildOutputPath src pl) = true := by
      rw [exists_eq_of_lookup (removeTree_lookup_keep hbo)]
      exact hexbo
    have hdirbo1 : (fs.removeTree (out ++ [pl])).isdir (buildOutputPath src pl) = true := by
      rw [isdir_eq_of_lookup (removeTree_lookup_keep hbo)]
      exact h2
    have hexpop1 : (fs.removeTree (out ++ [pl])).exists (out ++ [pl]) = false := by
      unfold FS.exists
      rw [removeTree_lookup_none (pfx_refl (out ++ [pl]))]
      rfl
    refine ⟨⟨(fs.removeTree (out ++ [pl])).entries ++
      copyMap (fs.removeTree (out ++ [pl])).entries (buildOutputPath src pl)
        (out ++ [pl])⟩, ?_, ?_, ?_⟩
    · simp only [hex, hdir, copytree_ok hexbo1 hdirbo1 hexpop1]
      simp [buildOutputPath]
    · intro q hq
      unfold FS.lookup
      simp only
      rw [lookupL_append, lookupL_copyMap_none hq]
      exact removeTree_lookup_keep hq
    · intro rest
      unfold FS.lookup
      simp only
      rw [lookupL_append, lookupL_copyMap]
      have hlk : lookupL (fs.removeTree (out ++ [pl])).entries
          (buildOutputPath src pl ++ rest) =
          lookupL fs.entries (buildOutputPath src pl ++ rest) :=
        removeTree_lookup_keep (hsep rest)
      rw [hlk]
      cases hv : lookupL fs.entries (buildOutputPath src pl ++ rest) with
      | some e => rfl
      | none =>
        simp only [hex]
        exact removeTree_lookup_none (pfx_append_self (out ++ [pl]) rest)
  · simp only [Bool.not_eq_true] at hex
    refine ⟨⟨fs.entries ++ copyMap fs.entries (buildOutputPath src pl)
      (out ++ [pl])⟩, ?_, ?_, ?_⟩
    · simp only [hex, copytree_ok hexbo h2 hex]
      simp [buildOutputPath]
    · intro q hq
      unfold FS.lookup
      simp only
      rw [lookupL_append, lookupL_copyMap_none hq]
    · intro rest
      unfold FS.lookup
      simp only
      rw [lookupL_append, lookupL_copyMap]
      cases hv : lookupL fs.entries (buildOutputPath src pl ++ rest) with
      | some e => rfl
      | none => simp [hex]

/-! Whole-run characterizations over the concrete plugin list, assuming the
source and destination subtrees are disjoint. -/

theorem append_singleton_ne {x y : String} (h : x ≠ y) (out : Path) :
    out ++ [x] ≠ out ++ [y] := by
  have hp := pfx_distinct_child h out []
  rw [List.append_nil] at hp
  exact ne_of_pfx_false hp

theorem sep_bo_pfx {src out : Path} (hsep1 : src.isPrefixOf out = false)
    (hsep2 : out.isPrefixOf src = false) (pl pl' : String) (rest : Path) :
    (out ++ [pl']).isPrefixOf (buildOutputPath src pl ++ rest) = false := by
  unfold buildOutputPath
  rw [List.append_assoc]
  exact sep_pfx hsep2 hsep1 [pl'] _

theorem sep_plug_pfx {src out : Path} (hsep1 : src.isPrefixOf out = false)
    (hsep2 : out.isPrefixOf src = false) (pl pl' : String) :
    (out ++ [pl']).isPrefixOf (src ++ [pl]) = false :=
  sep_pfx hsep2 hsep1 [pl'] [pl]

theorem bo_pfx_out_false {src out : Path} (hsep1 : src.isPrefixOf out = false)
    (hsep2 : out.isPrefixOf src = false) (pl : String) (k : Path) :
    (buildOutputPath src pl).isPrefixOf (out ++ k) = false := by
  unfold buildOutputPath
  exact sep_pfx hsep1 hsep2 _ _

theorem pfx_sibling_false {x y : String} (h : x ≠ y) (out : Path) :
    (out ++ [x]).isPrefixOf (out ++ [y]) = false := by
  have hp := pfx_distinct_child h out []
  rwa [List.append_nil] at hp

theorem main_pack_ok (abspath : String → Path) (fs : FS) (prog dstArg : String)
    (hout : fs.isdir (abspath dstArg) = true)
    (hsrc : fs.isdir (abspath "../src") = true)
    (hplug : ∀ q ∈ plugins, fs.isdir ((abspath "../src") ++ [q]) = true)
    (hbo : ∀ q ∈ plugins, fs.isdir (buildOutputPath (abspath "../src") q) = true)
    (hzz : ∀ q ∈ plugins, fs.isdir ((abspath dstArg) ++ [q ++ ".zip"]) = false)
    (hsep1 : (abspath "../src").isPrefixOf (abspath dstArg) = false)
    (hsep2 : (abspath dstArg).isPrefixOf (abspath "../src") = false) :
    main abspath fs [prog, "pack", dstArg] =
      (.ok (), ⟨fs.entries ++
        [((abspath dstArg) ++ ["F95ZoneMetadata" ++ ".zip"],
          .zipf (zipEntries (walkFiles fs
            (buildOutputPath (abspath "../src") "F95ZoneMetadata")))),
         ((abspath dstArg) ++ ["DLSiteMetadata" ++ ".zip"],
          .zipf (zipEntries (walkFiles fs
            (buildOutputPath (abspath "../src") "DLSiteMetadata"))))]⟩,
       [.validate (abspath dstArg), .validate (abspath "../src"),
        .validate ((abspath "../src") ++ ["F95ZoneMetadata"]),
        .validate (buildOutputPath (abspath "../src") "F95ZoneMetadata"),
        .zipCreate ((abspath dstArg) ++ ["F95ZoneMetadata" ++ ".zip"]),
        .validate ((abspath "../src") ++ ["DLSiteMetadata"]),
        .validate (buildOutputPath (abspath "../src") "DLSiteMetadata"),
        .zipCreate ((abspath dstArg) ++ ["DLSiteMetadata" ++ ".zip"])]) := by
  have hm1 : "F95ZoneMetadata" ∈ plugins := by simp [plugins]
  have hm2 : "DLSiteMetadata" ∈ plugins := by simp [plugins]
  have hstep1 := processPack_ok
        [.validate (abspath dstArg), .validate (abspath "../src")]
    (hplug _ hm1) (hbo _ hm1) (hzz _ hm1)
  set z1 : Entry := .zipf (zipEntries (walkFiles fs
    (buildOutputPath (abspath "../src") "F95ZoneMetadata"))) with hz1
  set fs1 : FS := ⟨fs.entries ++
    [((abspath dstArg) ++ ["F95ZoneMetadata" ++ ".zip"], z1)]⟩ with hfs1
  have hlk1 : ∀ q : Path,
      ((abspath dstArg) ++ ["F95ZoneMetadata" ++ ".zip"]) ≠ q →
      fs1.lookup q = fs.lookup q := by
    intro q hq
    rw [hfs1]
    unfold FS.lookup
    simp only
    rw [lookup_append_single, if_neg hq]
  have hd1 : fs1.isdir ((abspath "../src") ++ ["DLSiteMetadata"]) = true := by
    rw [isdir_eq_of_lookup (hlk1 _ (sep_ne hsep2 hsep1 _ _))]
    exact hplug _ hm2
  have hd2 : fs1.isdir (buildOutputPath (abspath "../src") "DLSiteMetadata") = true := by
    rw [isdir_eq_of_lookup (hlk1 _ ?_)]
    · exact hbo _ hm2
    · unfold buildOutputPath
      exact sep_ne hsep2 hsep1 _ _
  have hd3 : fs1.isdir ((abspath dstArg) ++ ["DLSiteMetadata" ++ ".zip"]) = false := by
    rw [isdir_eq_of_lookup (hlk1 _ (append_singleton_ne (by decide) _))]
    exact hzz _ hm2
  have hwalk : walkFiles fs1 (buildOutputPath (abspath "../src") "DLSiteMetadata") =
      walkFiles fs (buildOutputPath (abspath "../src") "DLSiteMetadata") := by
    rw [hfs1]
    cases fs with
    | mk l =>
      apply walkFiles_append_ext
      intro e he
      rcases List.mem_singleton.mp he with rfl
      exact bo_pfx_out_false hsep1 hsep2 _ _
  have hstep2 := processPack_ok
        ([.validate (abspath dstArg), .validate (abspath "../src")] ++
      [.validate ((abspath "../src") ++ ["F95ZoneMetadata"]),
       .validate (buildOutputPath (abspath "../src") "F95ZoneMetadata"),
       .zipCreate ((abspath dstArg) ++ ["F95ZoneMetadata" ++ ".zip"])])
    hd1 hd2 hd3
  simp only [main, validate_ok_of_isdir hout, validate_ok_of_isdir hsrc, plugins,
    runPlugins]
  rw [show (processPlugin "pack" (abspath "../src") (abspath dstArg)
    "F95ZoneMetadata" fs [.validate (abspath dstArg), .validate (abspath "../src")]) =
    (.ok (), fs1, _) from hstep1]
  simp only [runPlugins]
  rw [hstep2, hwalk]
  simp [hfs1, hz1]

theorem main_copy_ok (abspath : String → Path) (fs : FS) (prog dstArg : String)
    (hout : fs.isdir (abspath dstArg) = true)
    (hsrc : fs.isdir (abspath "../src") = true)
    (hplug : ∀ q ∈ plugins, fs.isdir ((abspath "../src") ++ [q]) = true)
    (hbo : ∀ q ∈ plugins, fs.isdir (buildOutputPath (abspath "../src") q) = true)
    (hdd : ∀ q ∈ plugins, fs.exists ((abspath dstArg) ++ [q]) = false ∨
      fs.isdir ((abspath dstArg) ++ [q]) = true)
    (hsep1 : (abspath "../src").isPrefixOf (abspath dstArg) = false)
    (hsep2 : (abspath dstArg).isPrefixOf (abspath "../src") = false) :
    ∃ fsF evsF, main abspath fs [prog, "copy", dstArg] = (.ok (), fsF, evsF) ∧
      (∀ q, (abspath dstArg).isPrefixOf q = false →
        fsF.lookup q = fs.lookup q) ∧
      (∀ pl ∈ plugins, ∀ rest : Path,
        fsF.lookup (((abspath dstArg) ++ [pl]) ++ rest) =
          match fs.lookup (buildOutputPath (abspath "../src") pl ++ rest) with
          | some e => some e
          | none => if fs.exists ((abspath dstArg) ++ [pl]) then none
                    else fs.lookup (((abspath dstArg) ++ [pl]) ++ rest)) := by
  have hm1 : "F95ZoneMetadata" ∈ plugins := by simp [plugins]
  have hm2 : "DLSiteMetadata" ∈ plugins := by simp [plugins]
  have hne12 : "F95ZoneMetadata" ≠ "DLSiteMetadata" := by decide
  obtain ⟨fs1, heq1, hframe1, hdst1⟩ := processCopy_ok
        [.validate (abspath dstArg), .validate (abspath "../src")]
    (hplug _ hm1) (hbo _ hm1) (hdd _ hm1)
    (fun rest => sep_bo_pfx hsep1 hsep2 _ _ rest)
  -- facts about fs1 needed to process the second plugin
  have hl1 : ∀ q : Path, ((abspath dstArg) ++ ["F95ZoneMetadata"]).isPrefixOf q = false →
      fs1.lookup q = fs.lookup q := hframe1
  have hd1 : fs1.isdir ((abspath "../src") ++ ["DLSiteMetadata"]) = true := by
    rw [isdir_eq_of_lookup (hl1 _ (sep_plug_pfx hsep1 hsep2 _ _))]
    exact hplug _ hm2
  have hsepbo : ((abspath dstArg) ++ ["F95ZoneMetadata"]).isPrefixOf
      (buildOutputPath (abspath "../src") "DLSiteMetadata") = false := by
    have hx := sep_bo_pfx hsep1 hsep2 "DLSiteMetadata" "F95ZoneMetadata" []
    rwa [List.append_nil] at hx
  have hd2 : fs1.isdir (buildOutputPath (abspath "../src") "DLSiteMetadata") = true := by
    rw [isdir_eq_of_lookup (hl1 _ hsepbo)]
    exact hbo _ hm2
  have hpopeq : fs1.lookup ((abspath dstArg) ++ ["DLSiteMetadata"]) =
      fs.lookup ((abspath dstArg) ++ ["DLSiteMetadata"]) :=
    hl1 _ (pfx_sibling_false hne12 _)
  have hd3 : fs1.exists ((abspath dstArg) ++ ["DLSiteMetadata"]) = false ∨
      fs1.isdir ((abspath dstArg) ++ ["DLSiteMetadata"]) = true := by
    rw [exists_eq_of_lookup hpopeq, isdir_eq_of_lookup hpopeq]
    exact hdd _ hm2
  obtain ⟨fs2, heq2, hframe2, hdst2⟩ := processCopy_ok
        (([.validate (abspath dstArg), .validate (abspath "../src")]) ++
      ([.validate ((abspath "../src") ++ ["F95ZoneMetadata"]),
        .validate (buildOutputPath (abspath "../src") "F95ZoneMetadata")] ++
        (if fs.exists ((abspath dstArg) ++ ["F95ZoneMetadata"]) then
          [.rmtree ((abspath dstArg) ++ ["F95ZoneMetadata"])] else []) ++
        [.copytree (buildOutputPath (abspath "../src") "F95ZoneMetadata")
          ((abspath dstArg) ++ ["F95ZoneMetadata"])]))
    hd1 hd2 hd3 (fun rest => sep_bo_pfx hsep1 hsep2 _ _ rest)
  have hmain : main abspath fs [prog, "copy", dstArg] = (.ok (), fs2,
      (([.validate (abspath dstArg), .validate (abspath "../src")]) ++
        ([.validate ((abspath "../src") ++ ["F95ZoneMetadata"]),
          .validate (buildOutputPath (abspath "../src") "F95ZoneMetadata")] ++
          (if fs.exists ((abspath dstArg) ++ ["F95ZoneMetadata"]) then
            [.rmtree ((abspath dstArg) ++ ["F95ZoneMetadata"])] else []) ++
          [.copytree (buildOutputPath (abspath "../src") "F95ZoneMetadata")
            ((abspath dstArg) ++ ["F95ZoneMetadata"])])) ++
        ([.validate ((abspath "../src") ++ ["DLSiteMetadata"]),
          .validate (buildOutputPath (abspath "../src") "DLSiteMetadata")] ++
          (if fs1.exists ((abspath dstArg) ++ ["DLSiteMetadata"]) then
            [.rmtree ((abspath dstArg) ++ ["DLSiteMetadata"])] else []) ++
          [.copytree (buildOutputPath (abspath "../src") "DLSiteMetadata")
            ((abspath dstArg) ++ ["DLSiteMetadata"])])) := by
    simp only [main, validate_ok_of_isdir hout, validate_ok_of_isdir hsrc, plugins,
      runPlugins]
    rw [heq1]
    simp only [runPlugins]
    rw [heq2]
  refine ⟨fs2, _, hmain, ?_, ?_⟩
  · intro q hq
    rw [hframe2 q (pfx_extend_false hq _), hframe1 q (pfx_extend_false hq _)]
  · intro pl hpl rest
    have hbo2fs : fs1.lookup (buildOutputPath (abspath "../src") "DLSiteMetadata" ++ rest) =
        fs.lookup (buildOutputPath (abspath "../src") "DLSiteMetadata" ++ rest) :=
      hl1 _ (sep_bo_pfx hsep1 hsep2 _ _ rest)
    have hpop2fs : fs1.lookup (((abspath dstArg) ++ ["DLSiteMetadata"]) ++ rest) =
        fs.lookup (((abspath dstArg) ++ ["DLSiteMetadata"]) ++ rest) :=
      hl1 _ (pfx_distinct_child hne12 _ rest)
    rcases (show pl = "F95ZoneMetadata" ∨ pl = "DLSiteMetadata" by
      simpa [plugins] using hpl) with rfl | rfl
    · rw [hframe2 _ (pfx_distinct_child (fun h => hne12 h.symm) _ rest)]
      exact hdst1 rest
    · rw [hdst2 rest, hbo2fs, exists_eq_of_lookup hpopeq, hpop2fs]

/-! Remaining small helpers for the claim theorems. -/

theorem lookupL_append_single (l : List (Path × Entry)) (k : Path) (v : Entry)
    (q : Path) :
    lookupL (l ++ [(k, v)]) q = if k = q then some v else lookupL l q :=
  lookup_append_single l k v q

theorem lookupL_mem_of_some : ∀ {l : List (Path × Entry)} {q : Path} {e : Entry},
    lookupL l q = some e → (q, e) ∈ l := by
  intro l
  induction l with
  | nil => intro q e h; cases h
  | cons f l ih =>
    intro q e h
    simp only [lookupL] at h
    cases hl : lookupL l q with
    | some v =>
      rw [hl] at h
      exact List.mem_cons_of_mem f (ih (hl.trans h))
    | none =>
      rw [hl] at h
      by_cases hf : f.1 = q
      · rw [if_pos hf] at h
        have h2 := Option.some.inj h
        exact List.mem_cons.mpr (Or.inl (by rw [← hf, ← h2]))
      · rw [if_neg hf] at h
        exact absurd h (by simp)

theorem append_left_cancel' : ∀ (d a b : List String), d ++ a = d ++ b → a = b := by
  intro d
  induction d with
  | nil => intro a b h; exact h
  | cons x d ih =>
    intro a b h
    injection h with _ h2
    exact ih a b h2

theorem get_build_output_path_notfound {fs : FS} {src : Path} {pl : String}
    (h : fs.exists (buildOutputPath src pl) = false) :
    get_build_output_path fs (src ++ [pl]) =
      .error (.pathNotFound (buildOutputPath src pl)) := by
  unfold get_build_output_path
  rw [bo_assoc]
  simp only [validate_notfound h]

/-! The claim theorems. -/

/-- C7: `validate_path` fails with PathNotFound exactly when the path does
not exist; with the directory flag set it additionally fails with
NotADirectory exactly when the path exists but is not a directory; otherwise
it succeeds (it never modifies the filesystem: its type has no filesystem
output). -/
theorem validatePathSpec (fs : FS) (p : Path) :
    (∀ d : Bool, validate_path fs p d = .error (.pathNotFound p) ↔
      fs.exists p = false) ∧
    (validate_path fs p true = .error (.notADirectory p) ↔
      (fs.exists p = true ∧ fs.isdir p = false)) ∧
    (validate_path fs p false = .error (.notADirectory p) ↔ False) ∧
    (validate_path fs p true = .ok () ↔
      (fs.exists p = true ∧ fs.isdir p = true)) ∧
    (validate_path fs p false = .ok () ↔ fs.exists p = true) := by
  unfold validate_path
  by_cases h1 : fs.exists p = false
  · simp [h1]
  · have h1' : fs.exists p = true := by revert h1; cases fs.exists p <;> simp
    by_cases h2 : fs.isdir p = true
    · simp [h1', h2]
    · have h2' : fs.isdir p = false := by revert h2; cases fs.isdir p <;> simp
      simp [h1', h2']

/-- C6: an invocation whose `argv` length differs from 3 fails with the
InvalidArguments error before any filesystem operation: the filesystem is
returned untouched and the event trace is empty. -/
theorem argCountInvalid (abspath : String → Path) (fs : FS)
    (argv : List String) (h : argv.length ≠ 3) :
    main abspath fs argv = (.error (.invalidArgs "Not enough arguments!"), fs, []) := by
  rcases argv with _ | ⟨a, _ | ⟨b, _ | ⟨c, _ | ⟨d, t⟩⟩⟩⟩
  · rfl
  · rfl
  · rfl
  · exact absurd rfl h
  · rfl

/-- C6 witness. -/
theorem argCountInvalid_witness :
    main wAbs wFS ["prog"] = (.error (.invalidArgs "Not enough arguments!"), wFS, []) :=
  argCountInvalid wAbs wFS ["prog"] (by decide)

/-- C1 counterexample: with a well-formed filesystem and the unrecognized
mode "bogus", the run does end with the unknown-mode error, but the claim's
"no path validation is performed for any plugin" is false: the first
plugin's source directory is validated before the mode is examined. -/
theorem unknownModeClaimFalse :
    (main wAbs wFS ["prog", "bogus", "out"]).1 =
      .error (.invalidArgs ("Unknown mode: " ++ "bogus")) ∧
    Ev.validate (["src", "F95ZoneMetadata"]) ∈
      (main wAbs wFS ["prog", "bogus", "out"]).2.2 := by
  constructor
  · rfl
  · decide

/-- C1 (amended): with an unrecognized mode the run fails, leaves the
filesystem unmodified and performs no mutating operation (no rmtree,
copytree or archive creation); when the destination, source root, and the
first plugin's directory and build output validations all succeed, the error
is the unknown-mode InvalidArguments error. The path validations up to the
first plugin's build output are performed before the mode check, and a
failing one surfaces as its own error instead. -/
theorem unknownModeAborts (abspath : String → Path) (fs : FS)
    (prog mode dstArg : String) (h1 : mode ≠ "copy") (h2 : mode ≠ "pack") :
    (main abspath fs [prog, mode, dstArg]).2.1 = fs ∧
    (∀ e ∈ (main abspath fs [prog, mode, dstArg]).2.2, isMut e = false) ∧
    (fs.isdir (abspath dstArg) = true →
     fs.isdir (abspath "../src") = true →
     fs.isdir ((abspath "../src") ++ ["F95ZoneMetadata"]) = true →
     fs.isdir (buildOutputPath (abspath "../src") "F95ZoneMetadata") = true →
     (main abspath fs [prog, mode, dstArg]).1 =
       .error (.invalidArgs ("Unknown mode: " ++ mode))) := by
  cases hv1 : validate_path fs (abspath dstArg) true with
  | error e =>
    refine ⟨by simp [main, hv1], ?_, ?_⟩
    · simp only [main, hv1]
      intro ev hev
      rcases List.mem_singleton.mp hev with rfl
      rfl
    · intro hd _ _ _
      rw [validate_ok_of_isdir hd] at hv1
      cases hv1
  | ok u =>
    cases hv2 : validate_path fs (abspath "../src") true with
    | error e =>
      refine ⟨by simp [main, hv1, hv2], ?_, ?_⟩
      · simp only [main, hv1, hv2]
        intro ev hev
        fin_cases hev <;> rfl
      · intro _ hs _ _
        rw [validate_ok_of_isdir hs] at hv2
        cases hv2
    | ok u2 =>
      cases hv3 : validate_path fs ((abspath "../src") ++ ["F95ZoneMetadata"]) true with
      | error e =>
        refine ⟨?_, ?_, ?_⟩
        · simp [main, hv1, hv2, plugins, runPlugins, processPlugin, hv3]
        · simp only [main, hv1, hv2, plugins, runPlugins, processPlugin, hv3]
          intro ev hev
          fin_cases hev <;> rfl
        · intro _ _ hp _
          rw [validate_ok_of_isdir hp] at hv3
          cases hv3
      | ok u3 =>
        cases hv4 : get_build_output_path fs ((abspath "../src") ++ ["F95ZoneMetadata"]) with
        | error e =>
          have hv4' : validate_path fs
              (buildOutputPath (abspath "../src") "F95ZoneMetadata") true =
              .error e := by
            simp only [get_build_output_path] at hv4
            cases hvx : validate_path fs (((abspath "../src") ++ ["F95ZoneMetadata"]) ++
                ["bin", configuration, target]) true with
            | error e2 =>
              rw [hvx] at hv4
              have he : e2 = e := Except.error.inj hv4
              rw [← bo_assoc, hvx, he]
            | ok _ =>
              rw [hvx] at hv4
              exact Except.noConfusion hv4
          refine ⟨?_, ?_, ?_⟩
          · simp [main, hv1, hv2, plugins, runPlugins, processPlugin, hv3, hv4]
          · simp only [main, hv1, hv2, plugins, runPlugins, processPlugin, hv3, hv4]
            intro ev hev
            fin_cases hev <;> rfl
          · intro _ _ _ hb
            rw [validate_ok_of_isdir hb] at hv4'
            cases hv4'
        | ok bop =>
          refine ⟨?_, ?_, ?_⟩
          · simp [main, hv1, hv2, plugins, runPlugins, processPlugin, hv3, hv4,
              if_neg h1, if_neg h2]
          · simp only [main, hv1, hv2, plugins, runPlugins, processPlugin, hv3, hv4,
              if_neg h1, if_neg h2]
            intro ev hev
            fin_cases hev <;> rfl
          · intro _ _ _ _
            simp [main, hv1, hv2, plugins, runPlugins, processPlugin, hv3, hv4,
              if_neg h1, if_neg h2]

/-- C1 witness: concrete unknown-mode run. -/
theorem unknownModeAborts_witness :
    (main wAbs wFS ["prog", "bogus", "out"]).2.1 = wFS ∧
    (main wAbs wFS ["prog", "bogus", "out"]).1 =
      .error (.invalidArgs ("Unknown mode: " ++ "bogus")) := by
  have h := unknownModeAborts wAbs wFS "prog" "bogus" "out" (by decide) (by decide)
  exact ⟨h.1, h.2.2 (by decide) (by decide) (by decide) (by decide)⟩

/-- C9: no path outside the destination subtree is ever created, modified or
deleted by a run; consequently, when the source root subtree is disjoint
from the destination subtree, every path under the source root is left
untouched. -/
theorem writesOnlyUnderDestination (abspath : String → Path) (fs : FS)
    (prog mode dstArg : String) :
    (∀ q : Path, (abspath dstArg).isPrefixOf q = false →
      ((main abspath fs [prog, mode, dstArg]).2.1).lookup q = fs.lookup q) ∧
    ((abspath dstArg).isPrefixOf (abspath "../src") = false →
     (abspath "../src").isPrefixOf (abspath dstArg) = false →
     ∀ q : Path, (abspath "../src").isPrefixOf q = true →
      ((main abspath fs [prog, mode, dstArg]).2.1).lookup q = fs.lookup q) := by
  refine ⟨fun q hq => main_frame abspath fs prog mode dstArg hq, ?_⟩
  intro hs1 hs2 q hq
  apply main_frame
  cases hx : (abspath dstArg).isPrefixOf q with
  | false => rfl
  | true =>
    rcases pfx_comparable hx hq with h | h
    · rw [hs1] at h; cases h
    · rw [hs2] at h; cases h

/-- C9 witness: a concrete copy run leaves the source root entry unchanged. -/
theorem writesOnlyUnderDestination_witness :
    ((main wAbs wFS ["prog", "copy", "out"]).2.1).lookup ["src"] =
      wFS.lookup ["src"] :=
  (writesOnlyUnderDestination wAbs wFS "prog" "copy" "out").1 ["src"] (by decide)

/-- C3: in copy mode, after a run whose validations succeed (destination and
source subtrees disjoint), every file of a plugin's build output tree is
present at the corresponding path under `<destination>/<plugin>` with
identical content; the run itself succeeds. -/
theorem copyRoundTrip (abspath : String → Path) (fs : FS)
    (prog dstArg pl : String) (rest : Path) (c : List Nat)
    (hout : fs.isdir (abspath dstArg) = true)
    (hsrc : fs.isdir (abspath "../src") = true)
    (hplug : ∀ q ∈ plugins, fs.isdir ((abspath "../src") ++ [q]) = true)
    (hbo : ∀ q ∈ plugins, fs.isdir (buildOutputPath (abspath "../src") q) = true)
    (hdd : ∀ q ∈ plugins, fs.exists ((abspath dstArg) ++ [q]) = false ∨
      fs.isdir ((abspath dstArg) ++ [q]) = true)
    (hsep1 : (abspath "../src").isPrefixOf (abspath dstArg) = false)
    (hsep2 : (abspath dstArg).isPrefixOf (abspath "../src") = false)
    (hpl : pl ∈ plugins)
    (hfile : fs.lookup (buildOutputPath (abspath "../src") pl ++ rest) =
      some (.file c)) :
    (main abspath fs [prog, "copy", dstArg]).1 = .ok () ∧
    ((main abspath fs [prog, "copy", dstArg]).2.1).lookup
      (((abspath dstArg) ++ [pl]) ++ rest) = some (.file c) := by
  obtain ⟨fsF, evsF, hmain, hframe, hdst⟩ :=
    main_copy_ok abspath fs prog dstArg hout hsrc hplug hbo hdd hsep1 hsep2
  rw [hmain]
  refine ⟨rfl, ?_⟩
  show fsF.lookup _ = _
  rw [hdst pl hpl rest, hfile]

/-- C3 witness: concrete copy run round-trips the file `a.txt`. -/
theorem copyRoundTrip_witness :
    (main wAbs wFS ["prog", "copy", "out"]).1 = .ok () ∧
    ((main wAbs wFS ["prog", "copy", "out"]).2.1).lookup
      (((wAbs "out") ++ ["F95ZoneMetadata"]) ++ ["a.txt"]) =
      some (.file [10]) :=
  copyRoundTrip wAbs wFS "prog" "out" "F95ZoneMetadata" ["a.txt"] [10]
    (by decide) (by decide) (by decide) (by decide) (by decide) (by decide)
    (by decide) (by decide) (by decide)

/-- C4: in copy mode, a pre-existing destination plugin directory is fully
replaced: after a successful run, any path under it that has no counterpart
in the build output tree is gone. -/
theorem copyFullReplace (abspath : String → Path) (fs : FS)
    (prog dstArg pl : String) (rest : Path) (st : Entry)
    (hout : fs.isdir (abspath dstArg) = true)
    (hsrc : fs.isdir (abspath "../src") = true)
    (hplug : ∀ q ∈ plugins, fs.isdir ((abspath "../src") ++ [q]) = true)
    (hbo : ∀ q ∈ plugins, fs.isdir (buildOutputPath (abspath "../src") q) = true)
    (hdd : ∀ q ∈ plugins, fs.exists ((abspath dstArg) ++ [q]) = false ∨
      fs.isdir ((abspath dstArg) ++ [q]) = true)
    (hsep1 : (abspath "../src").isPrefixOf (abspath dstArg) = false)
    (hsep2 : (abspath dstArg).isPrefixOf (abspath "../src") = false)
    (hpl : pl ∈ plugins)
    (hpop : fs.isdir ((abspath dstArg) ++ [pl]) = true)
    (hstale : fs.lookup (((abspath dstArg) ++ [pl]) ++ rest) = some st)
    (habsent : fs.lookup (buildOutputPath (abspath "../src") pl ++ rest) = none) :
    (main abspath fs [prog, "copy", dstArg]).1 = .ok () ∧
    ((main abspath fs [prog, "copy", dstArg]).2.1).lookup
      (((abspath dstArg) ++ [pl]) ++ rest) = none := by
  obtain ⟨fsF, evsF, hmain, hframe, hdst⟩ :=
    main_copy_ok abspath fs prog dstArg hout hsrc hplug hbo hdd hsep1 hsep2
  rw [hmain]
  refine ⟨rfl, ?_⟩
  show fsF.lookup _ = _
  rw [hdst pl hpl rest, habsent, exists_of_isdir hpop]
  simp

/-- C4 witness: a stale file under a pre-existing destination plugin
directory is absent after the copy run. -/
theorem copyFullReplace_witness :
    (main wAbs wFS2 ["prog", "copy", "out"]).1 = .ok () ∧
    ((main wAbs wFS2 ["prog", "copy", "out"]).2.1).lookup
      (((wAbs "out") ++ ["F95ZoneMetadata"]) ++ ["stale.txt"]) = none :=
  copyFullReplace wAbs wFS2 "prog" "out" "F95ZoneMetadata" ["stale.txt"]
    (.file [9]) (by decide) (by decide) (by decide) (by decide) (by decide)
    (by decide) (by decide) (by decide) (by decide) (by decide) (by decide)

theorem lookupL_pack_final (l : List (Path × Entry)) (k1 k2 : Path)
    (v1 v2 : Entry) (q : Path) :
    lookupL (l ++ [(k1, v1), (k2, v2)]) q =
      if k2 = q then some v2 else if k1 = q then some v1 else lookupL l q := by
  have hsplit : l ++ [(k1, v1), (k2, v2)] = (l ++ [(k1, v1)]) ++ [(k2, v2)] := by
    simp
  rw [hsplit, lookupL_append_single, lookupL_append_single]

/-- C2: in pack mode, when the build output tree holds two distinct files
with the same base name, the produced archive `<destination>/<plugin>.zip`
holds exactly one entry under that base name, and its content is the content
of the file visited last in traversal order (`lastMatch`); the run
succeeds. -/
theorem packCollisionLastWins (abspath : String → Path) (fs : FS)
    (prog dstArg pl : String) (n : String) (q1 q2 : Path) (c1 c2 c : List Nat)
    (hout : fs.isdir (abspath dstArg) = true)
    (hsrc : fs.isdir (abspath "../src") = true)
    (hplug : ∀ q ∈ plugins, fs.isdir ((abspath "../src") ++ [q]) = true)
    (hbo : ∀ q ∈ plugins, fs.isdir (buildOutputPath (abspath "../src") q) = true)
    (hzz : ∀ q ∈ plugins, fs.isdir ((abspath dstArg) ++ [q ++ ".zip"]) = false)
    (hsep1 : (abspath "../src").isPrefixOf (abspath dstArg) = false)
    (hsep2 : (abspath dstArg).isPrefixOf (abspath "../src") = false)
    (hpl : pl ∈ plugins)
    (h1 : (q1, c1) ∈ walkFiles fs (buildOutputPath (abspath "../src") pl))
    (h2 : (q2, c2) ∈ walkFiles fs (buildOutputPath (abspath "../src") pl))
    (hqne : q1 ≠ q2) (hb1 : basename q1 = n) (hb2 : basename q2 = n)
    (hlast : lastMatch n (walkFiles fs (buildOutputPath (abspath "../src") pl)) =
      some c) :
    (main abspath fs [prog, "pack", dstArg]).1 = .ok () ∧
    ((main abspath fs [prog, "pack", dstArg]).2.1).lookup
        ((abspath dstArg) ++ [pl ++ ".zip"]) =
      some (.zipf (zipEntries (walkFiles fs
        (buildOutputPath (abspath "../src") pl)))) ∧
    (zipEntries (walkFiles fs (buildOutputPath (abspath "../src") pl))).filter
        (fun e => e.1 == n) = [(n, c)] := by
  have hmain := main_pack_ok abspath fs prog dstArg hout hsrc hplug hbo hzz
    hsep1 hsep2
  have h21 := congrArg (fun r => r.2.1) hmain
  simp only at h21
  refine ⟨by rw [hmain], ?_, ?_⟩
  · rw [h21]
    show lookupL _ _ = _
    rw [lookupL_pack_final]
    rcases (show pl = "F95ZoneMetadata" ∨ pl = "DLSiteMetadata" by
      simpa [plugins] using hpl) with rfl | rfl
    · rw [if_neg (append_singleton_ne (by decide) _), if_pos rfl]
    · rw [if_pos rfl]
  · unfold zipEntries
    rw [zipFold_filter n (walkFiles fs (buildOutputPath (abspath "../src") pl)) [],
      hlast]

/-- C2 witness: the tree `{a/x.txt, b/x.txt}` with different contents packs
to an archive with exactly one `x.txt` entry holding the later content. -/
theorem packCollisionLastWins_witness :
    (main wAbs wFS ["prog", "pack", "out"]).1 = .ok () ∧
    ((main wAbs wFS ["prog", "pack", "out"]).2.1).lookup
        ((wAbs "out") ++ ["F95ZoneMetadata" ++ ".zip"]) =
      some (.zipf (zipEntries (walkFiles wFS
        (buildOutputPath (wAbs "../src") "F95ZoneMetadata")))) ∧
    (zipEntries (walkFiles wFS
        (buildOutputPath (wAbs "../src") "F95ZoneMetadata"))).filter
      (fun e => e.1 == "x.txt") = [("x.txt", [2])] :=
  packCollisionLastWins wAbs wFS "prog" "out" "F95ZoneMetadata" "x.txt"
    (wBo1 ++ ["a", "x.txt"]) (wBo1 ++ ["b", "x.txt"]) [1] [2] [2]
    (by decide) (by decide) (by decide) (by decide) (by decide) (by decide)
    (by decide) (by decide) (by decide) (by decide) (by decide) (by decide)
    (by decide) (by decide)

/-- C10: in pack mode, a plugin whose build output directory exists but
contains no regular files still yields a successful run and an archive with
zero entries at `<destination>/<plugin>.zip`. -/
theorem packEmptyTreeZeroEntries (abspath : String → Path) (fs : FS)
    (prog dstArg pl : String)
    (hout : fs.isdir (abspath dstArg) = true)
    (hsrc : fs.isdir (abspath "../src") = true)
    (hplug : ∀ q ∈ plugins, fs.isdir ((abspath "../src") ++ [q]) = true)
    (hbo : ∀ q ∈ plugins, fs.isdir (buildOutputPath (abspath "../src") q) = true)
    (hzz : ∀ q ∈ plugins, fs.isdir ((abspath dstArg) ++ [q ++ ".zip"]) = false)
    (hsep1 : (abspath "../src").isPrefixOf (abspath dstArg) = false)
    (hsep2 : (abspath dstArg).isPrefixOf (abspath "../src") = false)
    (hpl : pl ∈ plugins)
    (hnof : ∀ q c, (buildOutputPath (abspath "../src") pl).isPrefixOf q = true →
      fs.lookup q = some (.file c) → False) :
    (main abspath fs [prog, "pack", dstArg]).1 = .ok () ∧
    ((main abspath fs [prog, "pack", dstArg]).2.1).lookup
        ((abspath dstArg) ++ [pl ++ ".zip"]) = some (.zipf []) := by
  have hmain := main_pack_ok abspath fs prog dstArg hout hsrc hplug hbo hzz
    hsep1 hsep2
  have h21 := congrArg (fun r => r.2.1) hmain
  simp only at h21
  have hwalk : walkFiles fs (buildOutputPath (abspath "../src") pl) = [] :=
    walkFiles_eq_nil hnof
  refine ⟨by rw [hmain], ?_⟩
  rw [h21]
  show lookupL _ _ = _
  rw [lookupL_pack_final]
  rcases (show pl = "F95ZoneMetadata" ∨ pl = "DLSiteMetadata" by
    simpa [plugins] using hpl) with rfl | rfl
  · rw [if_neg (append_singleton_ne (by decide) _), if_pos rfl, hwalk]; rfl
  · rw [if_pos rfl, hwalk]; rfl

/-- C10 witness: the second plugin's build output directory in `wFS` is
empty, and packing yields an empty archive. -/
theorem packEmptyTreeZeroEntries_witness :
    (main wAbs wFS ["prog", "pack", "out"]).1 = .ok () ∧
    ((main wAbs wFS ["prog", "pack", "out"]).2.1).lookup
        ((wAbs "out") ++ ["DLSiteMetadata" ++ ".zip"]) = some (.zipf []) := by
  apply packEmptyTreeZeroEntries wAbs wFS "prog" "out" "DLSiteMetadata"
    (by decide) (by decide) (by decide) (by decide) (by decide) (by decide)
    (by decide) (by decide)
  intro q c hpfx hlook
  have hm := lookupL_mem_of_some hlook
  simp only [wFS, wBo1, wBo2, List.mem_cons, List.not_mem_nil, or_false,
    Prod.mk.injEq] at hm
  rcases hm with ⟨rfl, h⟩ | ⟨rfl, h⟩ | ⟨rfl, h⟩ | ⟨rfl, h⟩ | ⟨rfl, h⟩ |
    ⟨rfl, h⟩ | ⟨rfl, h⟩ | ⟨rfl, h⟩ | ⟨rfl, h⟩ | ⟨rfl, h⟩ | ⟨rfl, h⟩ <;>
    first
      | exact Entry.noConfusion h
      | exact absurd hpfx (by decide)

/-- C5: when a plugin's expected build output directory is absent (and every
earlier plugin processes cleanly), the run fails with PathNotFound for that
directory, and nothing is produced under the destination for that plugin or
for any later plugin. -/
theorem missingBuildOutputFailFast (abspath : String → Path) (fs : FS)
    (prog mode dstArg : String) (pre post : List String) (pl : String)
    (hmode : mode = "copy" ∨ mode = "pack")
    (hout : fs.isdir (abspath dstArg) = true)
    (hsrc : fs.isdir (abspath "../src") = true)
    (hplug : ∀ q ∈ plugins, fs.isdir ((abspath "../src") ++ [q]) = true)
    (hdd : ∀ q ∈ plugins, fs.exists ((abspath dstArg) ++ [q]) = false ∨
      fs.isdir ((abspath dstArg) ++ [q]) = true)
    (hzz : ∀ q ∈ plugins, fs.isdir ((abspath dstArg) ++ [q ++ ".zip"]) = false)
    (hsep1 : (abspath "../src").isPrefixOf (abspath dstArg) = false)
    (hsep2 : (abspath dstArg).isPrefixOf (abspath "../src") = false)
    (hsplit : plugins = pre ++ pl :: post)
    (hpre : ∀ q ∈ pre, fs.isdir (buildOutputPath (abspath "../src") q) = true)
    (hmiss : fs.exists (buildOutputPath (abspath "../src") pl) = false) :
    (main abspath fs [prog, mode, dstArg]).1 =
      .error (.pathNotFound (buildOutputPath (abspath "../src") pl)) ∧
    (∀ q ∈ pl :: post, ∀ rest : Path,
      ((main abspath fs [prog, mode, dstArg]).2.1).lookup
        (((abspath dstArg) ++ [q]) ++ rest) =
        fs.lookup (((abspath dstArg) ++ [q]) ++ rest) ∧
      ((main abspath fs [prog, mode, dstArg]).2.1).lookup
        ((abspath dstArg) ++ [q ++ ".zip"]) =
        fs.lookup ((abspath dstArg) ++ [q ++ ".zip"])) := by
  have hm1 : "F95ZoneMetadata" ∈ plugins := by simp [plugins]
  have hm2 : "DLSiteMetadata" ∈ plugins := by simp [plugins]
  rcases pre with _ | ⟨a, pre'⟩
  · -- the missing plugin is the first one
    have hs : ("F95ZoneMetadata" : String) :: ["DLSiteMetadata"] = pl :: post :=
      hsplit
    injection hs with ha hb
    subst ha; subst hb
    have hsnd : (main abspath fs [prog, mode, dstArg]).2.1 = fs := by
      rcases hmode with rfl | rfl <;>
        simp [main, validate_ok_of_isdir hout, validate_ok_of_isdir hsrc, plugins,
          runPlugins, processPlugin, validate_ok_of_isdir (hplug _ hm1),
          get_build_output_path_notfound hmiss]
    refine ⟨?_, ?_⟩
    · rcases hmode with rfl | rfl <;>
        simp [main, validate_ok_of_isdir hout, validate_ok_of_isdir hsrc, plugins,
          runPlugins, processPlugin, validate_ok_of_isdir (hplug _ hm1),
          get_build_output_path_notfound hmiss]
    · intro q _ rest
      rw [hsnd]
      exact ⟨rfl, rfl⟩
  · rcases pre' with _ | ⟨b, pre''⟩
    · -- the missing plugin is the second one; the first processes cleanly
      have hs : ("F95ZoneMetadata" : String) :: ["DLSiteMetadata"] =
          a :: pl :: post := hsplit
      injection hs with ha hs2
      injection hs2 with hb hc
      subst ha; subst hb; subst hc
      have hma : "F95ZoneMetadata" ∈ ["F95ZoneMetadata"] := by simp
      have hbo2pfx : ((abspath dstArg) ++ ["F95ZoneMetadata"]).isPrefixOf
          (buildOutputPath (abspath "../src") "DLSiteMetadata") = false := by
        have hx := sep_bo_pfx hsep1 hsep2 "DLSiteMetadata" "F95ZoneMetadata" []
        rwa [List.append_nil] at hx
      rcases hmode with rfl | rfl
      · -- copy mode
        obtain ⟨fs1, heq1, hframe1, hdst1⟩ := processCopy_ok
                    [.validate (abspath dstArg), .validate (abspath "../src")]
          (hplug _ hm1) (hpre _ hma) (hdd _ hm1)
          (fun rest => sep_bo_pfx hsep1 hsep2 _ _ rest)
        have hv3 : validate_path fs1 ((abspath "../src") ++ ["DLSiteMetadata"])
            true = .ok () := by
          apply validate_ok_of_isdir
          rw [isdir_eq_of_lookup (hframe1 _ (sep_plug_pfx hsep1 hsep2 _ _))]
          exact hplug _ hm2
        have hbo2 : fs1.exists
            (buildOutputPath (abspath "../src") "DLSiteMetadata") = false := by
          rw [exists_eq_of_lookup (hframe1 _ hbo2pfx)]
          exact hmiss
        have hv4 := get_build_output_path_notfound hbo2
        have hsnd : (main abspath fs [prog, "copy", dstArg]).2.1 = fs1 := by
          simp only [main, validate_ok_of_isdir hout, validate_ok_of_isdir hsrc,
            plugins, runPlugins]
          rw [heq1]
          simp only [runPlugins, processPlugin, hv3, hv4]
        refine ⟨?_, ?_⟩
        · simp only [main, validate_ok_of_isdir hout, validate_ok_of_isdir hsrc,
            plugins, runPlugins]
          rw [heq1]
          simp only [runPlugins, processPlugin, hv3, hv4]
        · intro q hq rest
          rcases List.mem_singleton.mp hq with rfl
          rw [hsnd]
          exact ⟨hframe1 _ (pfx_distinct_child (by decide) _ rest),
            hframe1 _ (pfx_sibling_false (by decide) _)⟩
      · -- pack mode
        have hstep1 := processPack_ok
                    [.validate (abspath dstArg), .validate (abspath "../src")]
          (hplug _ hm1) (hpre _ hma) (hzz _ hm1)
        set fs1 : FS := ⟨fs.entries ++
          [((abspath dstArg) ++ ["F95ZoneMetadata" ++ ".zip"],
            .zipf (zipEntries (walkFiles fs
              (buildOutputPath (abspath "../src") "F95ZoneMetadata"))))]⟩
          with hfs1
        have hlk1 : ∀ q : Path,
            ((abspath dstArg) ++ ["F95ZoneMetadata" ++ ".zip"]) ≠ q →
            fs1.lookup q = fs.lookup q := by
          intro q hqne
          rw [hfs1]
          unfold FS.lookup
          simp only
          rw [lookup_append_single, if_neg hqne]
        have hv3 : validate_path fs1 ((abspath "../src") ++ ["DLSiteMetadata"])
            true = .ok () := by
          apply validate_ok_of_isdir
          rw [isdir_eq_of_lookup (hlk1 _ (sep_ne hsep2 hsep1 _ _))]
          exact hplug _ hm2
        have hbo2 : fs1.exists
            (buildOutputPath (abspath "../src") "DLSiteMetadata") = false := by
          rw [exists_eq_of_lookup (hlk1 _ ?_)]
          · exact hmiss
          · unfold buildOutputPath
            exact sep_ne hsep2 hsep1 _ _
        have hv4 := get_build_output_path_notfound hbo2
        have hsnd : (main abspath fs [prog, "pack", dstArg]).2.1 = fs1 := by
          simp only [main, validate_ok_of_isdir hout, validate_ok_of_isdir hsrc,
            plugins, runPlugins]
          rw [hstep1]
          simp only [runPlugins, processPlugin, hv3, hv4]
        refine ⟨?_, ?_⟩
        · simp only [main, validate_ok_of_isdir hout, validate_ok_of_isdir hsrc,
            plugins, runPlugins]
          rw [hstep1]
          simp only [runPlugins, processPlugin, hv3, hv4]
        · intro q hq rest
          rcases List.mem_singleton.mp hq with rfl
          rw [hsnd]
          constructor
          · apply hlk1
            intro he
            rw [List.append_assoc] at he
            have h2 := append_left_cancel' _ _ _ he
            rw [List.singleton_append] at h2
            injection h2 with h3 _
            exact absurd h3 (by decide)
          · exact hlk1 _ (append_singleton_ne (by decide) _)
    · -- the plugin list has only two entries
      exfalso
      have hlen := congrArg List.length hsplit
      simp [plugins] at hlen

/-- C5 witness: with the second plugin's build output directory removed, the
copy run fails with PathNotFound for it, and its destination paths are
untouched. -/
theorem missingBuildOutputFailFast_witness :
    (main wAbs wFS3 ["prog", "copy", "out"]).1 =
      .error (.pathNotFound (buildOutputPath (wAbs "../src") "DLSiteMetadata")) ∧
    ((main wAbs wFS3 ["prog", "copy", "out"]).2.1).lookup
      (((wAbs "out") ++ ["DLSiteMetadata"]) ++ []) =
      wFS3.lookup (((wAbs "out") ++ ["DLSiteMetadata"]) ++ []) ∧
    ((main wAbs wFS3 ["prog", "copy", "out"]).2.1).lookup
      ((wAbs "out") ++ ["DLSiteMetadata" ++ ".zip"]) =
      wFS3.lookup ((wAbs "out") ++ ["DLSiteMetadata" ++ ".zip"]) := by
  have h := missingBuildOutputFailFast wAbs wFS3 "prog" "copy" "out"
    ["F95ZoneMetadata"] [] "DLSiteMetadata" (Or.inl rfl)
    (by decide) (by decide) (by decide) (by decide) (by decide) (by decide)
    (by decide) (by decide) (by decide) (by decide)
  exact ⟨h.1, h.2 "DLSiteMetadata" (by simp) []⟩

/-- C8: in copy mode, when `<destination>/<plugin>` exists as a regular file
rather than a directory, the recursive pre-delete fails and the run aborts
with NotADirectory; the file is not replaced. -/
theorem destFileAborts (abspath : String → Path) (fs : FS)
    (prog dstArg : String) (pre post : List String) (pl : String)
    (hout : fs.isdir (abspath dstArg) = true)
    (hsrc : fs.isdir (abspath "../src") = true)
    (hplug : ∀ q ∈ plugins, fs.isdir ((abspath "../src") ++ [q]) = true)
    (hbo : ∀ q ∈ plugins, fs.isdir (buildOutputPath (abspath "../src") q) = true)
    (hsep1 : (abspath "../src").isPrefixOf (abspath dstArg) = false)
    (hsep2 : (abspath dstArg).isPrefixOf (abspath "../src") = false)
    (hsplit : plugins = pre ++ pl :: post)
    (hpredd : ∀ q ∈ pre, fs.exists ((abspath dstArg) ++ [q]) = false ∨
      fs.isdir ((abspath dstArg) ++ [q]) = true)
    (hfile1 : fs.exists ((abspath dstArg) ++ [pl]) = true)
    (hfile2 : fs.isdir ((abspath dstArg) ++ [pl]) = false) :
    (main abspath fs [prog, "copy", dstArg]).1 =
      .error (.notADirectory ((abspath dstArg) ++ [pl])) ∧
    ((main abspath fs [prog, "copy", dstArg]).2.1).lookup
      ((abspath dstArg) ++ [pl]) = fs.lookup ((abspath dstArg) ++ [pl]) := by
  have hm1 : "F95ZoneMetadata" ∈ plugins := by simp [plugins]
  have hm2 : "DLSiteMetadata" ∈ plugins := by simp [plugins]
  rcases pre with _ | ⟨a, pre'⟩
  · have hs : ("F95ZoneMetadata" : String) :: ["DLSiteMetadata"] = pl :: post :=
      hsplit
    injection hs with ha hb
    subst ha; subst hb
    have hsnd : (main abspath fs [prog, "copy", dstArg]).2.1 = fs := by
      simp [main, validate_ok_of_isdir hout, validate_ok_of_isdir hsrc, plugins,
        runPlugins, processPlugin, validate_ok_of_isdir (hplug _ hm1),
        get_build_output_path_ok (hbo _ hm1), hfile1, hfile2]
    refine ⟨?_, by rw [hsnd]⟩
    simp [main, validate_ok_of_isdir hout, validate_ok_of_isdir hsrc, plugins,
      runPlugins, processPlugin, validate_ok_of_isdir (hplug _ hm1),
      get_build_output_path_ok (hbo _ hm1), hfile1, hfile2]
  · rcases pre' with _ | ⟨b, pre''⟩
    · have hs : ("F95ZoneMetadata" : String) :: ["DLSiteMetadata"] =
          a :: pl :: post := hsplit
      injection hs with ha hs2
      injection hs2 with hb hc
      subst ha; subst hb; subst hc
      have hma : "F95ZoneMetadata" ∈ ["F95ZoneMetadata"] := by simp
      have hbo2pfx : ((abspath dstArg) ++ ["F95ZoneMetadata"]).isPrefixOf
          (buildOutputPath (abspath "../src") "DLSiteMetadata") = false := by
        have hx := sep_bo_pfx hsep1 hsep2 "DLSiteMetadata" "F95ZoneMetadata" []
        rwa [List.append_nil] at hx
      obtain ⟨fs1, heq1, hframe1, hdst1⟩ := processCopy_ok
                [.validate (abspath dstArg), .validate (abspath "../src")]
        (hplug _ hm1) (hbo _ hm1) (hpredd _ hma)
        (fun rest => sep_bo_pfx hsep1 hsep2 _ _ rest)
      have hv3 : validate_path fs1 ((abspath "../src") ++ ["DLSiteMetadata"])
          true = .ok () := by
        apply validate_ok_of_isdir
        rw [isdir_eq_of_lookup (hframe1 _ (sep_plug_pfx hsep1 hsep2 _ _))]
        exact hplug _ hm2
      have hv4 : get_build_output_path fs1
          ((abspath "../src") ++ ["DLSiteMetadata"]) =
          .ok (buildOutputPath (abspath "../src") "DLSiteMetadata") := by
        apply get_build_output_path_ok
        rw [isdir_eq_of_lookup (hframe1 _ hbo2pfx)]
        exact hbo _ hm2
      have hpopeq : fs1.lookup ((abspath dstArg) ++ ["DLSiteMetadata"]) =
          fs.lookup ((abspath dstArg) ++ ["DLSiteMetadata"]) :=
        hframe1 _ (pfx_sibling_false (by decide) _)
      have hfs1ex : fs1.exists ((abspath dstArg) ++ ["DLSiteMetadata"]) = true := by
        rw [exists_eq_of_lookup hpopeq]; exact hfile1
      have hfs1dir : fs1.isdir ((abspath dstArg) ++ ["DLSiteMetadata"]) = false := by
        rw [isdir_eq_of_lookup hpopeq]; exact hfile2
      have hsnd : (main abspath fs [prog, "copy", dstArg]).2.1 = fs1 := by
        simp only [main, validate_ok_of_isdir hout, validate_ok_of_isdir hsrc,
          plugins, runPlugins]
        rw [heq1]
        simp [runPlugins, processPlugin, hv3, hv4, hfs1ex, hfs1dir]
      refine ⟨?_, by rw [hsnd]; exact hpopeq⟩
      simp only [main, validate_ok_of_isdir hout, validate_ok_of_isdir hsrc,
        plugins, runPlugins]
      rw [heq1]
      simp [runPlugins, processPlugin, hv3, hv4, hfs1ex, hfs1dir]
    · exfalso
      have hlen := congrArg List.length hsplit
      simp [plugins] at hlen

/-- C8 witness: a regular file at the first plugin's destination path aborts
the copy run with NotADirectory and survives it. -/
theorem destFileAborts_witness :
    (main wAbs wFS4 ["prog", "copy", "out"]).1 =
      .error (.notADirectory ((wAbs "out") ++ ["F95ZoneMetadata"])) ∧
    ((main wAbs wFS4 ["prog", "copy", "out"]).2.1).lookup
      ((wAbs "out") ++ ["F95ZoneMetadata"]) =
      wFS4.lookup ((wAbs "out") ++ ["F95ZoneMetadata"]) :=
  destFileAborts wAbs wFS4 "prog" "out" [] ["DLSiteMetadata"] "F95ZoneMetadata"
    (by decide) (by decide) (by decide) (by decide) (by decide) (by decide)
    (by decide) (by decide) (by decide) (by decide)

end BuildScript
